import Mathlib

/-!
# Verification of the zoneomatic DNS zone editor

Shallow embedding of the zone-mutation engine (internal/zone/controller.go) and the
zone-file reformatter (pkg/dnsfmt/main.go).  Byte slices are modelled as `List Char`;
machine integers never overflow in the modelled code paths (lengths, RR type codes,
32-bit serials are plain `Nat`).  The external zone AST library (pkg/zonefile, not
under src) is modelled from the spec where the code depends on it.
-/

namespace Zoneomatic

/-- Byte strings of the Go source are modelled as lists of characters. -/
abbrev Str := List Char

/-- Converts a Lean string literal to the byte-string model. -/
def str (s : String) : Str := s.toList

/-! ## DNS RR type codes (miekg/dns numeric codes used by the source) -/

def typeA : Nat := 1
def typeNS : Nat := 2
def typeCNAME : Nat := 5
def typeSOA : Nat := 6
def typePTR : Nat := 12
def typeMX : Nat := 15
def typeTXT : Nat := 16
def typeAAAA : Nat := 28
def typeSRV : Nat := 33
def typeDS : Nat := 43
def typeRRSIG : Nat := 46
def typeNSEC : Nat := 47
def typeDNSKEY : Nat := 48
def typeTLSA : Nat := 52
def typeCDS : Nat := 59
def typeCDNSKEY : Nat := 60
def typeCAA : Nat := 257

/-- A parsed zone-file entry (spec section 3): a comment block, a control directive,
or a resource record.  Mirrors the entry variants and accessors of pkg/zonefile;
a nil Go byte slice is identified with the empty one, exactly as `bytes.Equal` does. -/
inductive Entry : Type
  | comment (lines : List Str)
  | control (cmd : Str) (values : List Str)
  | record (dom : Str) (ttl : Option Nat) (cls : Str) (typ : Str) (rrty : Nat) (values : List Str)
deriving DecidableEq, Repr

/-- Entry.Domain(): nil for comments and controls. -/
def Entry.domainB : Entry → Str
  | .record d _ _ _ _ _ => d
  | _ => []

/-- Entry.RRType(): 0 for comments and controls. -/
def Entry.rrtypeB : Entry → Nat
  | .record _ _ _ _ t _ => t
  | _ => 0

/-- Entry.Values(): the argument tokens of a control, the value tokens of a record. -/
def Entry.valuesB : Entry → List Str
  | .record _ _ _ _ _ vs => vs
  | .control _ vs => vs
  | .comment _ => []

/-! ## Errors of the controller (controller.go:24) -/

/-- Error outcomes of the modelled operations.  `panicIdx` stands for a Go runtime
panic caused by an out-of-range slice index (there is no error branch for it in the
source). -/
inductive UErr : Type
  | soaNotFound
  | recordNotFound
  | noMatchers
  | originChanged
  | zoneNotFound
  | malformed
  | parseErr
  | panicIdx
  | unknownRRType
deriving DecidableEq, Repr

/-! ## Matchers (controller.go:45) -/

/-- Matcher: triple of optional owner, RR type (0 matches anything) and optional
exact value-token list. -/
structure Matcher where
  dom : Option Str
  rrType : Nat
  values : Option (List Str)
deriving DecidableEq, Repr

/-- Matcher.Match (controller.go:172): nil fields match anything; a set RR type must
be positive to be checked; values must be byte-equal in order. -/
def Matcher.matchE (m : Matcher) (e : Entry) : Bool :=
  (match m.dom with | none => true | some d => e.domainB == d) &&
  (m.rrType == 0 || e.rrtypeB == m.rrType) &&
  (match m.values with | none => true | some vs => e.valuesB == vs)

/-- Matchers.Match (controller.go:204): an entry matches if any member matches. -/
def matchersMatch (ms : List Matcher) (e : Entry) : Bool :=
  ms.any (fun m => m.matchE e)

/-! ## Origin utilities -/

/-- dnsfmt.StripOrigin(origin, name) (pkg/dnsfmt/main.go:288): strips a non-empty
origin suffix plus the separating dot, yields "@" on exact equality, otherwise
returns the name unchanged. -/
def stripOrigin (origin name : Str) : Str :=
  if 0 < origin.length && origin.isSuffixOf name then
    if name.length == origin.length then str "@"
    else name.take (name.length - origin.length - 1)
  else name

/-- zone.StripOrigin(name, origin) (controller.go:480): same job, argument order
swapped, and without the emptiness guard on the origin. -/
def stripOriginZone (name origin : Str) : Str :=
  if origin.isSuffixOf name then
    if name.length == origin.length then str "@"
    else name.take (name.length - origin.length - 1)
  else name

/-- Modelled from the spec: zonefile.Fqdn (pkg/zonefile, not under src; spec section
4.B): append a trailing dot unless one is already present.  An empty name stays
empty — Reformat (main.go:56) relies on an absent origin hint staying empty. -/
def fqdn (n : Str) : Str :=
  if n = [] then []
  else if ['.'].isSuffixOf n then n
  else n ++ ['.']

/-! ## Zone dispatch (controller.go:143) -/

/-- domainMatchesOrigin (controller.go:159): exact equality, or the domain ends with
"." ++ origin-without-its-trailing-dot ++ ".". -/
def domainMatchesOrigin (domain origin : Str) : Bool :=
  domain == origin ||
    (let originNoDot := if ['.'].isSuffixOf origin then origin.dropLast else origin
     originNoDot != [] && (('.' :: originNoDot) ++ ['.']).isSuffixOf domain)

/-- A managed zone file, reduced to its origin and current entry sequence. -/
abbrev ZoneF := Str × List Entry

/-- The loop of DomainCtrl.findZoneFile (controller.go:143): keep the matching file
with the strictly longest origin seen so far (ties keep the earlier file). -/
def findZoneLoop (domain : Str) : Option ZoneF → List ZoneF → Option ZoneF
  | best, [] => best
  | best, z :: rest =>
    if domainMatchesOrigin domain z.1 then
      match best with
      | none => findZoneLoop domain (some z) rest
      | some b =>
        if z.1.length > b.1.length then findZoneLoop domain (some z) rest
        else findZoneLoop domain (some b) rest
    else findZoneLoop domain best rest

/-- DomainCtrl.findZoneFile (controller.go:143). -/
def findZoneFile (domain : Str) (zones : List ZoneF) : Option ZoneF :=
  findZoneLoop domain none zones

/-- Appends the trailing dot the DomainCtrl entry points add to the caller-supplied
domain (controller.go:89, 107, 129). -/
def ensureDot (d : Str) : Str :=
  if ['.'].isSuffixOf d then d else d ++ ['.']

/-! ## The match-replace splice (controller.go:278) -/

/-- The splice loop of File.updateRecords (controller.go:294): insert the replacement
values at the first matching entry, drop every later matching entry, copy every
non-matching entry through. -/
def spliceLoop (p : Entry → Bool) (vals : List Entry) : Bool → List Entry → List Entry × Bool
  | found, [] => ([], found)
  | found, e :: rest =>
    if p e then
      if found then spliceLoop p vals true rest
      else
        let r := spliceLoop p vals true rest
        (vals ++ r.1, r.2)
    else
      let r := spliceLoop p vals found rest
      (e :: r.1, r.2)

/-- File.updateRecords (controller.go:278) as a pure function on the entry sequence.
The re-read of the file, the changed check, the reformat of the result and the atomic
write are I/O and omitted; the function returns the new entry sequence or the error
the source returns. -/
def updateRecords (ms : List Matcher) (vals : List Entry) (allowNew : Bool)
    (entries : List Entry) : Except UErr (List Entry) :=
  if ms.isEmpty then .error .noMatchers
  else
    let r := spliceLoop (matchersMatch ms) vals false entries
    if r.2 then .ok r.1
    else if allowNew then .ok (r.1 ++ vals)
    else .error .recordNotFound

/-! ## Addresses and the DDNS operation (controller.go:352) -/

/-- A netip.Addr, reduced to what the controller observes: the address family and an
abstract numeric value.  netip.Addr.Compare sorts IPv4 addresses before IPv6 ones and
ascending within a family; the textual rendering used in the synthesized snippet
(fmt %v) is modelled by the injective encoding `addrText`. -/
structure Addr where
  is4 : Bool
  val : Nat
deriving DecidableEq, Repr

/-- Family rank for netip.Addr.Compare: 4-byte addresses sort first. -/
def Addr.fam (a : Addr) : Nat := if a.is4 then 0 else 1

/-- The order of netip.Addr.Compare: by family, then by value. -/
def Addr.le (a b : Addr) : Prop :=
  a.fam < b.fam ∨ (a.fam = b.fam ∧ a.val ≤ b.val)

instance : DecidableRel Addr.le := fun a b => by
  unfold Addr.le
  infer_instance

instance : IsTotal Addr Addr.le where
  total a b := by
    unfold Addr.le
    omega

instance : IsTrans Addr Addr.le where
  trans a b c hab hbc := by
    unfold Addr.le at *
    omega

/-- Injective decimal rendering standing in for the fmt %v text of an address. -/
def addrText (a : Addr) : Str :=
  (if a.is4 then str "v4-" else str "v6-") ++ Nat.toDigits 10 a.val

/-- Modelled from the spec (sections 4.F step 4 and 9): parsing the synthesized
"<owner> IN A <addr>" snippet line yields one A record; the write-then-parse round
trip through pkg/zonefile (not under src) is modelled as direct record construction. -/
def mkARecord (owner : Str) (a : Addr) : Entry :=
  .record owner none (str "IN") (str "A") typeA [addrText a]

/-- Modelled from the spec, as `mkARecord`, for the AAAA lines of the snippet. -/
def mkAAAARecord (owner : Str) (a : Addr) : Entry :=
  .record owner none (str "IN") (str "AAAA") typeAAAA [addrText a]

/-- File.UpdateDDNSAddress (controller.go:352) at the entry level: sort the addresses
with netip.Addr.Compare, split them by family preserving order, build the replacement
records and the per-family matchers, and run updateRecords with allowNew = true.
Locking, file I/O and the reformat of the written file are omitted; the function
returns the new entry sequence. -/
def ddnsFileUpdate (origin : Str) (entries : List Entry) (domain : Str)
    (addrs : List Addr) : Except UErr (List Entry) :=
  let sorted := List.insertionSort Addr.le addrs
  let newA := sorted.filter (fun a => a.is4)
  let newAAAA := sorted.filter (fun a => ! a.is4)
  let short := stripOriginZone domain origin
  let vals := newA.map (mkARecord short) ++ newAAAA.map (mkAAAARecord short)
  let ms : List Matcher :=
    (if newA.isEmpty then [] else [⟨some short, typeA, none⟩]) ++
    (if newAAAA.isEmpty then [] else [⟨some short, typeAAAA, none⟩])
  updateRecords ms vals true entries

/-- DomainCtrl.UpdateDDNSAddress (controller.go:85): add the trailing dot, dispatch
to the zone file with the longest matching origin, fail with ErrZoneNotFound when
none matches. -/
def ctrlUpdateDDNS (zones : List ZoneF) (domain : Str) (addrs : List Addr) :
    Except UErr (List Entry) :=
  let domainDot := ensureDot domain
  match findZoneFile domainDot zones with
  | none => .error .zoneNotFound
  | some z => ddnsFileUpdate z.1 z.2 domainDot addrs

/-! ## The ACME operation (controller.go:403) -/

/-- EmptyPlaceholder (controller.go:33). -/
def emptyPlaceholder : Str := str "placeholder"

/-- The ACME owner: the dotted domain with the _acme-challenge. label prepended when
missing (controller.go:107-114). -/
def acmeOwner (domain : Str) : Str :=
  let domainDot := ensureDot domain
  if (str "_acme-challenge.").isPrefixOf domainDot then domainDot
  else str "_acme-challenge." ++ domainDot

/-- Modelled from the spec (sections 4.F step 4 and 9), as `mkARecord`: the parsed
"<owner> IN TXT <token>" snippet line. -/
def txtRec (owner tok : Str) : Entry :=
  .record owner none (str "IN") (str "TXT") typeTXT [tok]

/-- File.UpdateACMEChallenge (controller.go:403) composed with the domain
normalization of DomainCtrl.UpdateACMEChallenge (controller.go:103): append the
trailing dot, prepend the _acme-challenge. label when missing, substitute the
placeholder for an empty new token, and replace via updateRecords with a TXT matcher
whose values field is nil exactly when the old token is empty. -/
def acmeUpdate (origin : Str) (entries : List Entry) (domain newToken oldToken : Str) :
    Except UErr (List Entry) :=
  let tok := if newToken = [] then emptyPlaceholder else newToken
  let short := stripOriginZone (acmeOwner domain) origin
  let vals := [txtRec short tok]
  let ms : List Matcher :=
    [⟨some short, typeTXT, if oldToken = [] then none else some [oldToken]⟩]
  updateRecords ms vals true entries

/-! ## The generic record replace (controller.go:446) -/

/-- strings.ToUpper(strings.TrimSpace(typ)) applied to the caller-supplied type. -/
def toUpperTrim (s : Str) : Str :=
  ((s.dropWhile (fun c => c = ' ')).reverse.dropWhile (fun c => c = ' ')).reverse.map Char.toUpper

/-- dns.StringToType restricted to the RR types the reformatter distinguishes;
every other known type behaves like the default branch and is irrelevant to the
claims, so unknown names map to none as in the source. -/
def rrTypeOfName (s : Str) : Option Nat :=
  if s = str "A" then some typeA
  else if s = str "NS" then some typeNS
  else if s = str "CNAME" then some typeCNAME
  else if s = str "SOA" then some typeSOA
  else if s = str "PTR" then some typePTR
  else if s = str "MX" then some typeMX
  else if s = str "TXT" then some typeTXT
  else if s = str "AAAA" then some typeAAAA
  else if s = str "SRV" then some typeSRV
  else if s = str "DS" then some typeDS
  else if s = str "RRSIG" then some typeRRSIG
  else if s = str "NSEC" then some typeNSEC
  else if s = str "DNSKEY" then some typeDNSKEY
  else if s = str "TLSA" then some typeTLSA
  else if s = str "CDS" then some typeCDS
  else if s = str "CDNSKEY" then some typeCDNSKEY
  else if s = str "CAA" then some typeCAA
  else none

/-- Splits a byte string on runs of blanks (the tokenization the zone parser applies
to a synthesized "<owner> IN <TYPE> <value>" line's value part). -/
def wsplit (s : Str) : List Str :=
  (s.splitOnP (fun c => c = ' ' || c = '\t')).filter (fun t => t ≠ [])

/-- File.ZMUpdateRecord (controller.go:446): the only operation that passes
allowNew = false to updateRecords. -/
def zmUpdate (origin : Str) (entries : List Entry) (domain typS : Str)
    (newValues : List Str) : Except UErr (List Entry) :=
  let typ := toUpperTrim typS
  match rrTypeOfName typ with
  | none => .error .unknownRRType
  | some rrty =>
    let short := stripOriginZone domain origin
    let vals := newValues.map (fun v => Entry.record short none (str "IN") typ rrty (wsplit v))
    let ms : List Matcher := [⟨some short, rrty, none⟩]
    updateRecords ms vals false entries

/-! ## Numeric and text helpers for the reformatter -/

/-- Decimal rendering of a natural number. -/
def natStr (n : Nat) : Str := Nat.toDigits 10 n

/-- True when the token is a non-empty run of decimal digits. -/
def isDigits (s : Str) : Bool := s ≠ [] && s.all Char.isDigit

/-- Decimal parse of a digit token. -/
def parseNatStr (s : Str) : Nat := s.foldl (fun acc c => acc * 10 + (c.toNat - 48)) 0

/-- Pads on the right with blanks to the given width, never truncating (fmt %-*s). -/
def padR (w : Nat) (s : Str) : Str := s ++ List.replicate (w - s.length) ' '

/-- Pads on the left with blanks to the given width, never truncating (fmt %*s). -/
def padL (w : Nat) (s : Str) : Str := List.replicate (w - s.length) ' ' ++ s

/-- Joins tokens with a single-character separator string. -/
def joinSep (sep : Str) (l : List Str) : Str := List.intercalate sep l

/-- Modelled from the spec (section 4.C): seconds_to_human, the TimeToHuman helper of
pkg/dnsfmt (not under src): minimal representation with the greedily largest of the
suffixes W, D, H, M for exact multiples, else decimal seconds. -/
def secondsToHuman (n : Nat) : Str :=
  if n = 0 then str "0"
  else if n % 604800 = 0 then natStr (n / 604800) ++ str "W"
  else if n % 86400 = 0 then natStr (n / 86400) ++ str "D"
  else if n % 3600 = 0 then natStr (n / 3600) ++ str "H"
  else if n % 60 = 0 then natStr (n / 60) ++ str "M"
  else natStr n

/-- Modelled from the spec (section 4.C): human_to_seconds on a single token: a plain
decimal count of seconds, or a decimal count with one unit suffix; anything else is 0. -/
def humanToSeconds (s : Str) : Nat :=
  if isDigits s then parseNatStr s
  else
    match s.getLast? with
    | none => 0
    | some u =>
      let digits := s.dropLast
      if ¬ isDigits digits then 0
      else
        let n := parseNatStr digits
        if u = 'W' ∨ u = 'w' then n * 604800
        else if u = 'D' ∨ u = 'd' then n * 86400
        else if u = 'H' ∨ u = 'h' then n * 3600
        else if u = 'M' ∨ u = 'm' then n * 60
        else 0

/-- Modelled from the spec: TimeToHumanByte of pkg/dnsfmt (not under src):
re-render a duration token canonically. -/
def timeToHumanTok (s : Str) : Str := secondsToHuman (humanToSeconds s)

/-- Two-digit zero-padded decimal. -/
def pad2 (n : Nat) : Str := if n < 10 then '0' :: natStr n else natStr n

/-- RFC 1123 weekday names, 0 = Sunday (the Unix epoch fell on a Thursday). -/
def weekdayName (n : Nat) : Str :=
  [str "Sun", str "Mon", str "Tue", str "Wed", str "Thu", str "Fri", str "Sat"].getD n []

/-- RFC 1123 month names, 1 = Jan. -/
def monthName (n : Nat) : Str :=
  [str "Jan", str "Feb", str "Mar", str "Apr", str "May", str "Jun", str "Jul",
   str "Aug", str "Sep", str "Oct", str "Nov", str "Dec"].getD (n - 1) []

/-- Civil date (year, month, day) of a day count since 1970-01-01 (days ≥ 0). -/
def civilFromDays (days : Nat) : Nat × Nat × Nat :=
  let z := days + 719468
  let era := z / 146097
  let doe := z % 146097
  let yoe := (doe - doe / 1460 + doe / 36524 - doe / 146096) / 365
  let y := yoe + era * 400
  let doy := doe - (365 * yoe + yoe / 4 - yoe / 100)
  let mp := (5 * doy + 2) / 153
  let d := doy - (153 * mp + 2) / 5 + 1
  let m := if mp < 10 then mp + 3 else mp - 9
  (if m ≤ 2 then y + 1 else y, m, d)

/-- RFC 1123 UTC rendering of a Unix timestamp ("Tue, 24 Aug 2010 06:07:47 UTC"). -/
def epochToRFC1123 (t : Nat) : Str :=
  let days := t / 86400
  let secs := t % 86400
  let c := civilFromDays days
  weekdayName ((days + 4) % 7) ++ str ", " ++ pad2 c.2.2 ++ [' '] ++
    monthName c.2.1 ++ [' '] ++ natStr c.1 ++ [' '] ++
    pad2 (secs / 3600) ++ [':'] ++ pad2 (secs % 3600 / 60) ++ [':'] ++
    pad2 (secs % 60) ++ str " UTC"

/-- Modelled from the spec (section 4.C): SerialToHuman of pkg/dnsfmt (not under src):
a 10-decimal-digit serial that fits an unsigned 32-bit integer is rendered as an RFC
1123 UTC date; anything else gives the empty annex.  The two leading blanks are
observable in the repository's own expected test output (main_test.go:23). -/
def serialToHuman (v : Str) : Str :=
  if v.length = 10 && isDigits v && parseNatStr v < 4294967296 then
    str "  " ++ epochToRFC1123 (parseNatStr v)
  else []

/-- Ten-digit zero-padded decimal. -/
def pad10 (n : Nat) : Str :=
  List.replicate (10 - (natStr n).length) '0' ++ natStr n

/-- Modelled from the spec (section 4.C): increase_serial of pkg/dnsfmt (not under
src): a serial that parses as epoch seconds at most now becomes the 10-digit current
epoch, otherwise it is incremented by one as a decimal; the claims only exercise the
reformatter with increment_serial = false, where this function is unreachable. -/
def increaseSerial (now : Nat) (v : Str) : Str :=
  if isDigits v then
    if parseNatStr v ≤ now then pad10 now else natStr (parseNatStr v + 1)
  else v

/-- The loop of Split, structurally recursive on a fuel that bounds the number of
remaining bytes (each full chunk consumes at least one byte, so the fuel never runs
out before the buffer does). -/
def splitChunksFuel (lim : Nat) : Nat → Str → List Str
  | 0, buf => if buf.isEmpty then [] else [buf]
  | f + 1, buf =>
    if 0 < lim ∧ lim ≤ buf.length then
      buf.take lim :: splitChunksFuel lim f (buf.drop lim)
    else if buf.isEmpty then [] else [buf]

/-- Split (pkg/dnsfmt/main.go:275): cut full chunks of lim bytes while at least lim
remain, then append the non-empty remainder.  The source loops forever on lim = 0;
it is only ever called with lim = 55, and the model returns the buffer whole there. -/
def splitChunks (lim : Nat) (buf : Str) : List Str :=
  splitChunksFuel lim buf.length buf

/-- fmt %q on a value token: double quotes with backslash-escaped quotes and
backslashes (the value bytes the claims exercise need no other escapes). -/
def quoteQ (s : Str) : Str :=
  '"' :: (s.flatMap (fun c => if c = '"' then ['\\', '"'] else if c = '\\' then ['\\', '\\'] else [c])) ++ ['"']

/-! ## Reformat pass 1 (pkg/dnsfmt/main.go:22): origin stripping and the owner tally -/

/-- Adds one to a key of the owner tally. -/
def bump (k : Str) : List (Str × Nat) → List (Str × Nat)
  | [] => [(k, 1)]
  | (k2, v) :: rest => if k2 = k then (k2, v + 1) :: rest else (k2, v) :: bump k rest

/-- Reads the owner tally; absent keys read 0, as for a Go map. -/
def lookup0 (m : List (Str × Nat)) (k : Str) : Nat := ((m.lookup k).getD 0)

/-- State of the first Reformat pass. -/
structure P1St where
  origin : Str
  single : List (Str × Nat)
  longest : Nat
  prevname : Str
deriving Repr

/-- The owner tally update of pass 1 (main.go:41): when the (stripped) owner differs
from the previous non-empty one, bump the tally of the new owner if it is non-empty,
else of the previous owner. -/
def tallyStep (single : List (Str × Nat)) (prevname dom : Str) : List (Str × Nat) :=
  if dom ≠ prevname ∧ prevname ≠ [] then
    if dom ≠ [] then bump dom single else bump prevname single
  else single

/-- The per-RR-type origin-stripping switch of pass 1 (main.go:51), including the
malformed-record errors and the adoption of the SOA owner as origin. -/
def stripSwitch (origin : Str) (dom : Str) (rrty : Nat) (values : List Str) :
    Except UErr (Str × List Str) :=
  if rrty = typeSOA then
    if values.length < 3 then .error .malformed
    else
      let origin2 := if origin = [] then fqdn dom else origin
      .ok (origin2, (values.set 0 (stripOrigin origin2 (values.getD 0 []))).set 1
        (stripOrigin origin2 (values.getD 1 [])))
  else if rrty = typeSRV then
    if values.length < 4 then .error .malformed
    else .ok (origin, values.set 3 (stripOrigin origin (values.getD 3 [])))
  else if rrty = typeRRSIG then
    if values.length < 8 then .error .malformed
    else .ok (origin, values.set 7 (stripOrigin origin (values.getD 7 [])))
  else if rrty = typeMX then
    if values.length < 2 then .error .malformed
    else .ok (origin, values.set 1 (stripOrigin origin (values.getD 1 [])))
  else if rrty = typePTR ∨ rrty = typeNS ∨ rrty = typeCNAME ∨ rrty = typeNSEC then
    if values.length < 1 then .error .malformed
    else .ok (origin, values.set 0 (stripOrigin origin (values.getD 0 [])))
  else .ok (origin, values)

/-- One entry of pass 1: returns the updated scan state and the entry as mutated in
place by the source (owner and selected operands stripped). -/
def p1Step (st : P1St) : Entry → Except UErr (P1St × Entry)
  | .comment ls => .ok (st, .comment ls)
  | .control cmd vs =>
    if cmd = str "$ORIGIN" then
      match vs.head? with
      | none => .error .panicIdx
      | some v => .ok ({ st with origin := fqdn v }, .control cmd vs)
    else .ok (st, .control cmd vs)
  | .record dom ttl cls typ rrty values => do
    let dom2 := stripOrigin st.origin dom
    let single2 := tallyStep st.single st.prevname dom2
    let (origin2, values2) ← stripSwitch st.origin dom2 rrty values
    let longest2 := if dom2.length > st.longest then dom2.length else st.longest
    let prevname2 := if dom2 ≠ [] then dom2 else st.prevname
    .ok (⟨origin2, single2, longest2, prevname2⟩, .record dom2 ttl cls typ rrty values2)

/-- The pass-1 fold over the entry sequence. -/
def p1Fold (st : P1St) : List Entry → Except UErr (P1St × List Entry)
  | [] => .ok (st, [])
  | e :: rest => do
    let (st2, e2) ← p1Step st e
    let (st3, es) ← p1Fold st2 rest
    .ok (st3, e2 :: es)

/-- Pass 1 of Reformat (main.go:22), starting from the fqdn of the origin hint. -/
def pass1 (originHint : Str) (entries : List Entry) : Except UErr (P1St × List Entry) :=
  p1Fold ⟨fqdn originHint, [], 0, []⟩ entries

/-! ## Reformat pass 2 (pkg/dnsfmt/main.go:115): emission -/

/-- Configuration of pass 2: the owner tally and padded owner-column width from pass
1, the increment flag, and the current time for the serial bump. -/
structure Cfg where
  single : List (Str × Nat)
  longest : Nat
  inc : Bool
  now : Nat
deriving Repr

/-- Mutable state of pass 2. -/
structure P2St where
  prevname : Str
  prevtype : Str
  prevttl : Nat
  prevcom : Bool
  firstname : Bool
deriving Repr, DecidableEq

/-- The blank-line decision before a record (main.go:141): only when the owner
changes to a non-empty one, the previous line was no comment, a record was already
seen, and the outgoing owner's tally is above one — or exactly one with a different
record type. -/
def blankBefore (cfg : Cfg) (st : P2St) (dom typ : Str) : Bool :=
  decide (st.prevname ≠ dom) &&
  (decide (dom ≠ []) && !st.prevcom && !st.firstname &&
    (let v := lookup0 cfg.single st.prevname
     decide (v > 1) || (decide (v = 1) && decide (st.prevtype ≠ typ))))

/-- The SOA comment column (main.go:269). -/
def soacomment : List Str :=
  [str "; serial", str "; refresh", str "; retry", str "; expire", str "; minimum"]

/-- The continuation-line indent prefix, fmt "%-*s" of " " at width longest + 29. -/
def indentPad (cfg : Cfg) : Str := padR (cfg.longest + 29) [' ']

/-- The closing parenthesis line (main.go:271). -/
def closeBraceLine (cfg : Cfg) : Str := padR (cfg.longest + 29 + 3) [' '] ++ [')']

/-- One SOA continuation line (main.go:207): the serial line with its human date, or
a duration line rendered canonically in upper case. -/
def soaLine (cfg : Cfg) (i : Nat) (v : Str) : Except UErr Str :=
  if i = 0 then
    let v2 := if cfg.inc then increaseSerial cfg.now v else v
    .ok (indentPad cfg ++ str "   " ++ padR 13 v2 ++ str "; serial" ++ serialToHuman v2)
  else
    match soacomment.get? i with
    | none => .error .panicIdx
    | some com => .ok (indentPad cfg ++ str "   " ++ padR 13 ((timeToHumanTok v).map Char.toUpper) ++ com)

/-- The per-RR-type value layout of pass 2 (main.go:177): the tail of the record's
first line, plus its continuation lines. -/
def valueLines (cfg : Cfg) (rrty : Nat) (values : List Str) : Except UErr (Str × List Str) :=
  if rrty = typeTXT then
    if values.length ≤ 1 then
      match values.head? with
      | none => .error .panicIdx
      | some v => .ok (str "   " ++ quoteQ v, [])
    else
      .ok (str "   (",
        values.map (fun v => indentPad cfg ++ str "   " ++ quoteQ v) ++ [closeBraceLine cfg])
  else if rrty = typeCAA then
    .ok (str "   " ++ joinSep [' '] (values.enum.map (fun iv => if iv.1 < 2 then iv.2 else quoteQ iv.2)), [])
  else if rrty = typeSOA then do
    let conts ← (values.drop 2).enum.mapM (fun iv => soaLine cfg iv.1 iv.2)
    .ok (str "   " ++ joinSep [' '] (values.take 2) ++ str " (", conts ++ [closeBraceLine cfg])
  else if rrty = typeTLSA ∨ rrty = typeCDS ∨ rrty = typeDS ∨ rrty = typeCDNSKEY ∨ rrty = typeDNSKEY then
    if values.length < 4 then .error .malformed
    else
      let pieces := splitChunks 55 (values.drop 3).flatten
      if pieces.length = 1 then .ok (str "   " ++ joinSep [' '] values, [])
      else
        .ok (str "   " ++ joinSep [' '] (values.take 3) ++ str " (",
          pieces.map (fun p => indentPad cfg ++ str "   " ++ padR 13 p) ++ [closeBraceLine cfg])
  else if rrty = typeRRSIG then
    if values.length < 8 then .error .panicIdx
    else
      let pieces := splitChunks 55 (values.drop 8).flatten
      .ok (str "   " ++ joinSep [' '] (values.take 8) ++ str " (",
        pieces.map (fun p => indentPad cfg ++ str "   " ++ padR 13 p) ++ [closeBraceLine cfg])
  else .ok (str "   " ++ joinSep [' '] values, [])

/-- The lines a record emits (main.go:141-254): an optional blank separator, the
aligned first line, and the continuation lines of parenthesized forms. -/
def recordLines (cfg : Cfg) (st : P2St) (dom : Str) (ttl : Option Nat) (cls typ : Str)
    (rrty : Nat) (values : List Str) : Except UErr (List Str) :=
  match valueLines cfg rrty values with
  | .error e => .error e
  | .ok (first, conts) =>
    let domCol := if st.prevname ≠ dom then padR cfg.longest dom else padR cfg.longest []
    let ttlCol :=
      match ttl with
      | some t => if t ≠ st.prevttl then padL 10 (secondsToHuman t) else padL 10 [' ']
      | none => padL 10 [' ']
    let clsCol := if cls ≠ [] then padL 5 cls else padL 5 (str "IN")
    let typCol := str "   " ++ padR 8 typ
    .ok ((if blankBefore cfg st dom typ then [([] : Str)] else []) ++
      [domCol ++ ttlCol ++ clsCol ++ typCol ++ first] ++ conts)

/-- The pass-2 state after a record (main.go:160-259). -/
def recordStep (st : P2St) (dom : Str) (ttl : Option Nat) (typ : Str) : P2St :=
  { prevname := if dom ≠ [] then dom else st.prevname
    prevtype := typ
    prevttl := match ttl with
      | some t => if t ≠ st.prevttl then t else st.prevttl
      | none => st.prevttl
    prevcom := false
    firstname := false }

/-- Pass 2 of Reformat: fold the entries into output lines (a blank line is the
empty line []). -/
def emitLoop (cfg : Cfg) (st : P2St) : List Entry → Except UErr (List Str)
  | [] => .ok []
  | .comment ls :: rest => do
    let more ← emitLoop cfg { st with prevcom := true, prevname := [], prevtype := [] } rest
    .ok ((if !st.prevcom && !st.firstname then [([] : Str)] else []) ++ ls ++ more)
  | .control cmd vs :: rest => do
    let more ← emitLoop cfg { st with prevcom := false, prevname := [], prevtype := [] } rest
    .ok ((cmd ++ [' '] ++ joinSep [' '] vs) :: more)
  | .record dom ttl cls typ rrty values :: rest => do
    let ls ← recordLines cfg st dom ttl cls typ rrty values
    let more ← emitLoop cfg (recordStep st dom ttl typ) rest
    .ok (ls ++ more)

/-- Reformat (pkg/dnsfmt/main.go:12) on an already-parsed entry sequence: pass 1,
then the owner column width longest + 2, then pass 2. -/
def reformatEntries (now : Nat) (inc : Bool) (originHint : Str) (entries : List Entry) :
    Except UErr (List Str) := do
  let (st1, es) ← pass1 originHint entries
  emitLoop ⟨st1.single, st1.longest + 2, inc, now⟩ ⟨[], [], 0, false, true⟩ es

/-! ## A spec-modelled zone parser

Modelled from the spec: the external zone AST (pkg/zonefile, not under src; spec
sections 2.A and 3) tokenizes a master file into an ordered entry sequence: comment
lines, $-control directives, and records whose owner is empty when the line starts
with blanks.  The modelled subset covers blank-line skipping, a decimal TTL, a class
token, the type token and value tokens; quoted values and parenthesized
continuations are outside the modelled subset and are rejected, never misparsed. -/

/-- Leading-token scan of a record line: an optional decimal TTL and an optional
class token in either order, then the type and the values. -/
def parseRRTokens : Option Nat → Str → List Str → Option (Option Nat × Str × Str × List Str)
  | _, _, [] => none
  | ttl, cls, t :: rest =>
    if isDigits t && ttl.isNone then parseRRTokens (some (parseNatStr t)) cls rest
    else if (t = str "IN" ∨ t = str "CH" ∨ t = str "HS" ∨ t = str "CS") ∧ cls = [] then
      parseRRTokens ttl t rest
    else some (ttl, cls, t, rest)

/-- The numeric RR type of a type token; unknown names keep code 0 and take the
default layout branch. -/
def rrtypeCode (ty : Str) : Nat := (rrTypeOfName ty).getD 0

/-- Parses one line of a zone file into at most one entry. -/
def parseZLine (line : Str) : Except UErr (Option Entry) :=
  if line.all (fun c => c = ' ' ∨ c = '\t') then .ok none
  else if line.contains '(' ∨ line.contains ')' ∨ line.contains '"' then
    if line.head? = some ';' then .ok (some (.comment [line])) else .error .parseErr
  else if line.head? = some ';' then .ok (some (.comment [line]))
  else if line.head? = some '$' then
    match wsplit line with
    | [] => .error .parseErr
    | cmd :: vs => .ok (some (.control cmd vs))
  else
    let ownerless : Bool := match line.head? with
      | some c => c = ' ' || c = '\t'
      | none => true
    if ownerless then
      match parseRRTokens none [] (wsplit line) with
      | none => .error .parseErr
      | some (ttl, cls, ty, vals) => .ok (some (.record [] ttl cls ty (rrtypeCode ty) vals))
    else
      match wsplit line with
      | [] => .error .parseErr
      | d :: rest =>
        match parseRRTokens none [] rest with
        | none => .error .parseErr
        | some (ttl, cls, ty, vals) => .ok (some (.record d ttl cls ty (rrtypeCode ty) vals))

/-- Splits a byte string into lines at newline characters. -/
def lineSplit (s : Str) : List Str := s.splitOnP (fun c => c = '\n')

/-- Parses a whole zone file into its entry sequence. -/
def parseZone (data : Str) : Except UErr (List Entry) := do
  let opts ← (lineSplit data).mapM parseZLine
  .ok (opts.filterMap id)

/-- Reformat (pkg/dnsfmt/main.go:12) end to end on bytes: parse, two passes, and the
newline-terminated output text. -/
def reformatText (now : Nat) (inc : Bool) (originHint : Str) (data : Str) :
    Except UErr Str := do
  let es ← parseZone data
  let ls ← reformatEntries now inc originHint es
  .ok ((ls.map (fun l => l ++ ['\n'])).flatten)

/-! ## Claim-side specification definitions and concrete inputs -/

instance {e a : Type} [DecidableEq e] [DecidableEq a] : DecidableEq (Except e a) := fun x y =>
  match x, y with
  | .ok v, .ok w =>
    if h : v = w then isTrue (by rw [h]) else isFalse (fun hh => by cases hh; exact h rfl)
  | .error v, .error w =>
    if h : v = w then isTrue (by rw [h]) else isFalse (fun hh => by cases hh; exact h rfl)
  | .ok _, .error _ => isFalse (fun hh => by cases hh)
  | .error _, .ok _ => isFalse (fun hh => by cases hh)

/-- Specification-side form of the splice (spec section 4.F steps 5 and 6): the new
values replace the first matching entry and every later match is dropped; with no
match the new values go to the end.  `updateRecords` with allowNew is proved to
refine this. -/
def spliceSpec (p : Entry → Bool) (vals : List Entry) (entries : List Entry) : List Entry :=
  if entries.any p then
    entries.takeWhile (fun e => ! p e) ++ vals ++
      ((entries.dropWhile (fun e => ! p e)).drop 1).filter (fun e => ! p e)
  else entries ++ vals

/-- The combined effect of the two DDNS matchers: an A or AAAA record at the
stripped owner. -/
def ddnsMatch (short : Str) (e : Entry) : Bool :=
  (e.domainB == short) && (e.rrtypeB == typeA || e.rrtypeB == typeAAAA)

/-- The ACME-DNS-mode matcher effect: any TXT record at the stripped owner. -/
def acmeMatchAll (short : Str) (e : Entry) : Bool :=
  (e.domainB == short) && (e.rrtypeB == typeTXT)

/-- The LEGO-mode matcher effect: a TXT record at the stripped owner whose value
token sequence is exactly the old token. -/
def acmeMatchOld (short oldToken : Str) (e : Entry) : Bool :=
  (e.domainB == short) && (e.rrtypeB == typeTXT) && (e.valuesB == [oldToken])

/-- Concrete input refuting reformatter idempotence: the owner a carries two records
of different types and the next owner b follows without a blank line on the first
run, but with one on the second. -/
def xC3 : Str :=
  str "$ORIGIN example.org.\na IN A 1.2.3.4\na IN AAAA ::1\nb IN A 1.2.3.4\n"

/-- First reformat of `xC3`. -/
def xC3once : Except UErr Str := reformatText 0 false [] xC3

/-- Second reformat of `xC3`. -/
def xC3twice : Except UErr Str := xC3once.bind (reformatText 0 false [])

/-- The 64-hex-digit TLSA certificate association datum of the repository's own
TestFormatTLSAStaysOneLine (main_test.go:141). -/
def c6hex : Str :=
  str "bbe71be3a546c68e3b802ab0d5e2417ae6c4c795b76250a7c6965914f57d5059"

/-- The TLSA zone input of TestFormatTLSAStaysOneLine (main_test.go:140). -/
def c6input : Str :=
  str "$ORIGIN example.org.\n_25._tcp.example.org. TLSA 3 1 1 " ++ c6hex ++ ['\n']

/-- The reformatted lines of `c6input`. -/
def c6res : Except UErr (List Str) := do
  let es ← parseZone c6input
  reformatEntries 0 false [] es

/-- Three singleton CNAME owners in a row: the code keeps same-type singleton
owners packed with no blank separator. -/
def c7ents : List Entry :=
  [ .record (str "alpha.example.org.") none (str "IN") (str "CNAME") typeCNAME [str "a"],
    .record (str "mmark.example.org.") none (str "IN") (str "CNAME") typeCNAME [str "a"],
    .record (str "bot.example.org.") none (str "IN") (str "CNAME") typeCNAME [str "a"] ]

/-- The reformatted lines of `c7ents`. -/
def c7res : Except UErr (List Str) := reformatEntries 0 false (str "example.org.") c7ents

/-- Two records with owners a then b: the pass-1 tally bumps the incoming owner b,
not the outgoing owner a. -/
def c8ents : List Entry :=
  [ .record (str "a.example.org.") none (str "IN") (str "A") typeA [str "1.2.3.4"],
    .record (str "b.example.org.") none (str "IN") (str "A") typeA [str "1.2.3.5"] ]

/-- The pass-1 owner tally of `c8ents`, read at a key. -/
def c8tally (k : Str) : Option Nat :=
  (pass1 (str "example.org.") c8ents).toOption.map (fun p => lookup0 p.1.single k)

/-- The reformatted lines of `c6input`, read out of the Except. -/
def c6lines : List Str := c6res.toOption.getD []

/-- The reformatted lines of `c7ents`, read out of the Except. -/
def c7lines : List Str := c7res.toOption.getD []

/-! # Theorems

## Shared lemmas about the splice loop -/

theorem spliceLoop_after_found (p : Entry → Bool) (vals : List Entry) :
    ∀ l : List Entry, spliceLoop p vals true l = (l.filter (fun e => ! p e), true) := by
  intro l
  induction l with
  | nil => simp [spliceLoop]
  | cons e rest ih =>
    cases hp : p e with
    | true => simp [spliceLoop, hp, ih, List.filter_cons]
    | false => simp [spliceLoop, hp, ih, List.filter_cons]

theorem spliceLoop_no_match (p : Entry → Bool) (vals : List Entry) :
    ∀ l : List Entry, (∀ e ∈ l, p e = false) → spliceLoop p vals false l = (l, false) := by
  intro l
  induction l with
  | nil => intro _; simp [spliceLoop]
  | cons e rest ih =>
    intro h
    have he := h e (List.mem_cons_self e rest)
    simp [spliceLoop, he, ih (fun x hx => h x (List.mem_cons_of_mem _ hx))]

theorem spliceLoop_first_match (p : Entry → Bool) (vals : List Entry) :
    ∀ l : List Entry, (∃ e ∈ l, p e = true) →
      spliceLoop p vals false l =
        (l.takeWhile (fun e => ! p e) ++ vals ++
          ((l.dropWhile (fun e => ! p e)).drop 1).filter (fun e => ! p e), true) := by
  intro l
  induction l with
  | nil => rintro ⟨e, he, -⟩; cases he
  | cons e rest ih =>
    rintro ⟨x, hx, hpx⟩
    cases hp : p e with
    | true =>
      simp [spliceLoop, hp, spliceLoop_after_found, List.takeWhile_cons, List.dropWhile_cons]
    | false =>
      have hxr : x ∈ rest := by
        rcases List.mem_cons.mp hx with h | h
        · subst h; rw [hp] at hpx; cases hpx
        · exact h
      simp [spliceLoop, hp, ih ⟨x, hxr, hpx⟩, List.takeWhile_cons, List.dropWhile_cons]

theorem updateRecords_found (ms : List Matcher) (vals : List Entry) (allowNew : Bool)
    (entries : List Entry) (hms : ms ≠ [])
    (hex : ∃ e ∈ entries, matchersMatch ms e = true) :
    updateRecords ms vals allowNew entries = .ok
      (entries.takeWhile (fun e => ! matchersMatch ms e) ++ vals ++
        ((entries.dropWhile (fun e => ! matchersMatch ms e)).drop 1).filter
          (fun e => ! matchersMatch ms e)) := by
  have hE : ms.isEmpty = false := by
    cases ms with
    | nil => exact absurd rfl hms
    | cons a l => rfl
  simp [updateRecords, hE, spliceLoop_first_match (matchersMatch ms) vals entries hex]

theorem updateRecords_no_match (ms : List Matcher) (vals : List Entry)
    (entries : List Entry) (hms : ms ≠ [])
    (hno : ∀ e ∈ entries, matchersMatch ms e = false) :
    updateRecords ms vals true entries = .ok (entries ++ vals) ∧
    updateRecords ms vals false entries = .error .recordNotFound := by
  have hE : ms.isEmpty = false := by
    cases ms with
    | nil => exact absurd rfl hms
    | cons a l => rfl
  constructor <;>
    simp [updateRecords, hE, spliceLoop_no_match (matchersMatch ms) vals entries hno]

theorem updateRecords_allowNew_spec (ms : List Matcher) (vals : List Entry)
    (entries : List Entry) (hms : ms ≠ []) :
    updateRecords ms vals true entries = .ok (spliceSpec (matchersMatch ms) vals entries) := by
  by_cases h : entries.any (matchersMatch ms) = true
  · obtain ⟨x, hx, hpx⟩ := List.any_eq_true.mp h
    rw [updateRecords_found ms vals true entries hms ⟨x, hx, hpx⟩]
    simp [spliceSpec, h]
  · have hno : ∀ e ∈ entries, matchersMatch ms e = false := by
      intro e he
      by_contra hne
      exact h (List.any_eq_true.mpr ⟨e, he, by revert hne; cases matchersMatch ms e <;> simp⟩)
    rw [(updateRecords_no_match ms vals entries hms hno).1]
    simp [spliceSpec, h]

theorem updateRecords_true_ne_notFound (ms : List Matcher) (vals : List Entry)
    (entries : List Entry) :
    updateRecords ms vals true entries ≠ .error .recordNotFound := by
  unfold updateRecords
  by_cases hE : ms.isEmpty = true
  · simp [hE]
  · simp only [Bool.not_eq_true] at hE
    cases hF : (spliceLoop (matchersMatch ms) vals false entries).2 <;> simp [hE, hF]

/-- C2: updateRecords splices the replacement entries at the first matching entry,
drops every later matching entry and copies the rest through; with no match it
appends the replacements when allowNew holds and returns ErrRecordNotFound (leaving
the sequence alone) when it does not; and the ErrRecordNotFound outcome is
unreachable from the DDNS and ACME operations, which pass allowNew = true — only
ZMUpdateRecord passes allowNew = false. -/
theorem updateRecords_match_replace_spec (ms : List Matcher) (vals : List Entry)
    (entries : List Entry) (hms : ms ≠ []) :
    ((∃ e ∈ entries, matchersMatch ms e = true) →
      ∀ allowNew, updateRecords ms vals allowNew entries = .ok
        (entries.takeWhile (fun e => ! matchersMatch ms e) ++ vals ++
          ((entries.dropWhile (fun e => ! matchersMatch ms e)).drop 1).filter
            (fun e => ! matchersMatch ms e))) ∧
    ((∀ e ∈ entries, matchersMatch ms e = false) →
      updateRecords ms vals true entries = .ok (entries ++ vals) ∧
      updateRecords ms vals false entries = .error .recordNotFound) ∧
    (∀ origin es domain addrs,
      ddnsFileUpdate origin es domain addrs ≠ .error .recordNotFound) ∧
    (∀ origin es domain newToken oldToken,
      acmeUpdate origin es domain newToken oldToken ≠ .error .recordNotFound) := by
  refine ⟨fun hex allowNew => updateRecords_found ms vals allowNew entries hms hex,
    fun hno => updateRecords_no_match ms vals entries hms hno, ?_, ?_⟩
  · intro origin es domain addrs
    unfold ddnsFileUpdate
    exact updateRecords_true_ne_notFound _ _ _
  · intro origin es domain newToken oldToken
    unfold acmeUpdate
    exact updateRecords_true_ne_notFound _ _ _

/-- Claim C2 witness. -/
theorem updateRecords_match_replace_spec_witness :
    updateRecords [⟨some (str "a"), typeTXT, none⟩] [txtRec (str "a") (str "x")] true
      [txtRec (str "a") (str "old"), txtRec (str "b") (str "keep")] =
      .ok [txtRec (str "a") (str "x"), txtRec (str "b") (str "keep")] := by
  rw [(updateRecords_match_replace_spec _ _ _ (by decide)).1
    ⟨txtRec (str "a") (str "old"), by decide, by decide⟩ true]
  decide

/-! ## Shared lemmas for the DDNS operation -/

theorem matchersMatch_ddns (short : Str) (e : Entry) :
    matchersMatch [⟨some short, typeA, none⟩, ⟨some short, typeAAAA, none⟩] e =
      ddnsMatch short e := by
  simp only [matchersMatch, Matcher.matchE, ddnsMatch, List.any_cons, List.any_nil,
    typeA, typeAAAA]
  cases e.domainB == short <;> cases e.rrtypeB == 1 <;> cases e.rrtypeB == 28 <;> rfl

/-- C1: UpdateDDNSAddress replaces, at the origin-stripped owner, the whole set of
pre-existing A and AAAA records of that owner by one A record per supplied IPv4
address followed by one AAAA record per supplied IPv6 address, each family sorted
ascending, spliced at the position of the first pre-existing A or AAAA record of the
owner; every other entry is copied through in its original order. -/
theorem ddns_update_splices_sorted_addresses (origin : Str) (entries : List Entry)
    (domain : Str) (addrs : List Addr)
    (h4 : ∃ a ∈ addrs, a.is4 = true) (h6 : ∃ a ∈ addrs, a.is4 = false)
    (hexi : ∃ e ∈ entries, ddnsMatch (stripOriginZone domain origin) e = true) :
    ddnsFileUpdate origin entries domain addrs = .ok
      (entries.takeWhile (fun e => ! ddnsMatch (stripOriginZone domain origin) e) ++
        (((List.insertionSort Addr.le addrs).filter (fun a => a.is4)).map
            (mkARecord (stripOriginZone domain origin)) ++
          ((List.insertionSort Addr.le addrs).filter (fun a => ! a.is4)).map
            (mkAAAARecord (stripOriginZone domain origin))) ++
        ((entries.dropWhile (fun e => ! ddnsMatch (stripOriginZone domain origin) e)).drop 1).filter
          (fun e => ! ddnsMatch (stripOriginZone domain origin) e)) ∧
    List.Sorted Addr.le ((List.insertionSort Addr.le addrs).filter (fun a => a.is4)) ∧
    ((List.insertionSort Addr.le addrs).filter (fun a => a.is4)).Perm
      (addrs.filter (fun a => a.is4)) ∧
    List.Sorted Addr.le ((List.insertionSort Addr.le addrs).filter (fun a => ! a.is4)) ∧
    ((List.insertionSort Addr.le addrs).filter (fun a => ! a.is4)).Perm
      (addrs.filter (fun a => ! a.is4)) := by
  have hperm : (List.insertionSort Addr.le addrs).Perm addrs :=
    List.perm_insertionSort Addr.le addrs
  have hsorted : List.Sorted Addr.le (List.insertionSort Addr.le addrs) :=
    List.sorted_insertionSort Addr.le addrs
  have hp4 := hperm.filter (fun a => a.is4)
  have hp6 := hperm.filter (fun a => ! a.is4)
  have h4s : (List.insertionSort Addr.le addrs).filter (fun a => a.is4) ≠ [] := by
    obtain ⟨a, ha, hpa⟩ := h4
    have : a ∈ addrs.filter (fun a => a.is4) := List.mem_filter.mpr ⟨ha, by simp [hpa]⟩
    intro hnil
    rw [hnil] at hp4
    exact absurd (hp4.symm.mem_iff.mp this) (List.not_mem_nil a)
  have h6s : (List.insertionSort Addr.le addrs).filter (fun a => ! a.is4) ≠ [] := by
    obtain ⟨a, ha, hpa⟩ := h6
    have : a ∈ addrs.filter (fun a => ! a.is4) := List.mem_filter.mpr ⟨ha, by simp [hpa]⟩
    intro hnil
    rw [hnil] at hp6
    exact absurd (hp6.symm.mem_iff.mp this) (List.not_mem_nil a)
  refine ⟨?_, hsorted.filter _, hp4, hsorted.filter _, hp6⟩
  have hE4 : ((List.insertionSort Addr.le addrs).filter (fun a => a.is4)).isEmpty = false := by
    rw [List.isEmpty_eq_false]
    exact h4s
  have hE6 : ((List.insertionSort Addr.le addrs).filter (fun a => ! a.is4)).isEmpty = false := by
    rw [List.isEmpty_eq_false]
    exact h6s
  have hMs : ∀ e, matchersMatch [⟨some (stripOriginZone domain origin), typeA, none⟩,
      ⟨some (stripOriginZone domain origin), typeAAAA, none⟩] e =
      ddnsMatch (stripOriginZone domain origin) e :=
    matchersMatch_ddns (stripOriginZone domain origin)
  have hfun : (fun e => ! matchersMatch [⟨some (stripOriginZone domain origin), typeA, none⟩,
      ⟨some (stripOriginZone domain origin), typeAAAA, none⟩] e) =
      (fun e => ! ddnsMatch (stripOriginZone domain origin) e) := by
    funext e
    rw [hMs e]
  have hexM : ∃ e ∈ entries, matchersMatch [⟨some (stripOriginZone domain origin), typeA, none⟩,
      ⟨some (stripOriginZone domain origin), typeAAAA, none⟩] e = true := by
    obtain ⟨e, he, hpe⟩ := hexi
    exact ⟨e, he, by rw [hMs e]; exact hpe⟩
  unfold ddnsFileUpdate
  simp only [hE4, hE6, Bool.false_eq_true, if_false, List.singleton_append]
  rw [updateRecords_found _ _ _ _ (by simp) hexM]
  rw [hfun]

/-- Claim C1 witness. -/
theorem ddns_update_splices_sorted_addresses_witness :
    ddnsFileUpdate (str "example.org.")
      [Entry.record (str "loop") none (str "IN") (str "A") typeA [str "10.0.0.1"],
       Entry.record (str "keep") none (str "IN") (str "TXT") typeTXT [str "k"],
       Entry.record (str "loop") none (str "IN") (str "AAAA") typeAAAA [str "::1"]]
      (str "loop.example.org.") [⟨false, 9⟩, ⟨true, 7⟩, ⟨true, 5⟩] = .ok
      [mkARecord (str "loop") ⟨true, 5⟩, mkARecord (str "loop") ⟨true, 7⟩,
       mkAAAARecord (str "loop") ⟨false, 9⟩,
       Entry.record (str "keep") none (str "IN") (str "TXT") typeTXT [str "k"]] := by
  rw [(ddns_update_splices_sorted_addresses (str "example.org.")
    [Entry.record (str "loop") none (str "IN") (str "A") typeA [str "10.0.0.1"],
     Entry.record (str "keep") none (str "IN") (str "TXT") typeTXT [str "k"],
     Entry.record (str "loop") none (str "IN") (str "AAAA") typeAAAA [str "::1"]]
    (str "loop.example.org.") [⟨false, 9⟩, ⟨true, 7⟩, ⟨true, 5⟩]
    ⟨⟨true, 7⟩, by decide, by decide⟩ ⟨⟨false, 9⟩, by decide, by decide⟩
    ⟨Entry.record (str "loop") none (str "IN") (str "A") typeA [str "10.0.0.1"],
      by decide, by decide⟩).1]
  decide

/-! ## Shared lemmas for the ACME operation -/

theorem matchersMatch_acmeAll (short : Str) (e : Entry) :
    matchersMatch [⟨some short, typeTXT, none⟩] e = acmeMatchAll short e := by
  simp only [matchersMatch, Matcher.matchE, acmeMatchAll, List.any_cons, List.any_nil, typeTXT]
  cases e.domainB == short <;> cases e.rrtypeB == 16 <;> rfl

theorem matchersMatch_acmeOld (short oldToken : Str) (e : Entry) :
    matchersMatch [⟨some short, typeTXT, some [oldToken]⟩] e =
      acmeMatchOld short oldToken e := by
  simp only [matchersMatch, Matcher.matchE, acmeMatchOld, List.any_cons, List.any_nil, typeTXT]
  cases e.domainB == short <;> cases e.rrtypeB == 16 <;> cases e.valuesB == [oldToken] <;> rfl

/-- C4: UpdateACMEChallenge operates at the owner _acme-challenge.<short>, prepending
the label when missing; with an empty old token it replaces every TXT record at that
owner by a single TXT holding the new token (or the placeholder when the new token is
empty); with a non-empty old token it replaces only the TXT records whose value token
sequence is exactly that single old token, leaving every other TXT at the owner
intact. -/
theorem acme_update_two_modes (origin : Str) (entries : List Entry)
    (domain newToken oldToken : Str) :
    (oldToken = [] →
      acmeUpdate origin entries domain newToken oldToken = .ok
        (spliceSpec (acmeMatchAll (stripOriginZone (acmeOwner domain) origin))
          [txtRec (stripOriginZone (acmeOwner domain) origin)
            (if newToken = [] then emptyPlaceholder else newToken)] entries)) ∧
    (oldToken ≠ [] →
      acmeUpdate origin entries domain newToken oldToken = .ok
        (spliceSpec (acmeMatchOld (stripOriginZone (acmeOwner domain) origin) oldToken)
          [txtRec (stripOriginZone (acmeOwner domain) origin)
            (if newToken = [] then emptyPlaceholder else newToken)] entries)) := by
  constructor
  · intro hold
    unfold acmeUpdate
    rw [if_pos hold, updateRecords_allowNew_spec _ _ _ (by simp),
      funext (matchersMatch_acmeAll (stripOriginZone (acmeOwner domain) origin))]
  · intro hold
    unfold acmeUpdate
    rw [if_neg hold, updateRecords_allowNew_spec _ _ _ (by simp),
      funext (matchersMatch_acmeOld (stripOriginZone (acmeOwner domain) origin) oldToken)]

/-- Claim C4 witness: the S6 cleanup scenario — only the TXT holding the old token is
replaced, the placeholder TXT at the same owner stays. -/
theorem acme_update_two_modes_witness :
    acmeUpdate (str "example.org.")
      [txtRec (str "_acme-challenge") (str "placeholder"),
       txtRec (str "_acme-challenge") (str "realtoken")]
      (str "example.org.") [] (str "realtoken") = .ok
      [txtRec (str "_acme-challenge") (str "placeholder"),
       txtRec (str "_acme-challenge") (str "placeholder")] := by
  rw [(acme_update_two_modes (str "example.org.")
    [txtRec (str "_acme-challenge") (str "placeholder"),
     txtRec (str "_acme-challenge") (str "realtoken")]
    (str "example.org.") [] (str "realtoken")).2 (by decide)]
  decide

/-! ## Shared lemmas for zone dispatch -/

theorem findZoneLoop_char (domain : Str) :
    ∀ (l : List ZoneF) (best : Option ZoneF),
      match findZoneLoop domain best l with
      | none => best = none ∧ ∀ z ∈ l, domainMatchesOrigin domain z.1 = false
      | some r =>
          (best = some r ∨ (r ∈ l ∧ domainMatchesOrigin domain r.1 = true)) ∧
          (∀ z ∈ l, domainMatchesOrigin domain z.1 = true → z.1.length ≤ r.1.length) ∧
          (∀ b, best = some b → b.1.length ≤ r.1.length) := by
  intro l
  induction l with
  | nil =>
    intro best
    cases best with
    | none => exact ⟨rfl, fun z hz => absurd hz (List.not_mem_nil z)⟩
    | some b =>
      refine ⟨Or.inl rfl, fun z hz => absurd hz (List.not_mem_nil z), ?_⟩
      rintro b2 hb2
      cases hb2
      exact Nat.le_refl _
  | cons z rest ih =>
    intro best
    by_cases hm : domainMatchesOrigin domain z.1 = true
    · cases best with
      | none =>
        have h := ih (some z)
        rw [show findZoneLoop domain none (z :: rest) = findZoneLoop domain (some z) rest by
          simp [findZoneLoop, hm]]
        cases hr : findZoneLoop domain (some z) rest with
        | none =>
          rw [hr] at h
          exact absurd h.1 (by simp)
        | some r =>
          rw [hr] at h
          refine ⟨?_, ?_, ?_⟩
          · rcases h.1 with h1 | h1
            · cases h1
              exact Or.inr ⟨List.mem_cons_self z rest, hm⟩
            · exact Or.inr ⟨List.mem_cons_of_mem z h1.1, h1.2⟩
          · intro z2 hz2 hm2
            rcases List.mem_cons.mp hz2 with h2 | h2
            · subst h2
              exact h.2.2 z2 rfl
            · exact h.2.1 z2 h2 hm2
          · rintro b hb
            cases hb
      | some b =>
        by_cases hlen : z.1.length > b.1.length
        · have h := ih (some z)
          rw [show findZoneLoop domain (some b) (z :: rest) = findZoneLoop domain (some z) rest by
            simp [findZoneLoop, hm, hlen]]
          cases hr : findZoneLoop domain (some z) rest with
          | none =>
            rw [hr] at h
            exact absurd h.1 (by simp)
          | some r =>
            rw [hr] at h
            refine ⟨?_, ?_, ?_⟩
            · rcases h.1 with h1 | h1
              · cases h1
                exact Or.inr ⟨List.mem_cons_self z rest, hm⟩
              · exact Or.inr ⟨List.mem_cons_of_mem z h1.1, h1.2⟩
            · intro z2 hz2 hm2
              rcases List.mem_cons.mp hz2 with h2 | h2
              · subst h2
                exact h.2.2 z2 rfl
              · exact h.2.1 z2 h2 hm2
            · rintro b2 hb2
              cases hb2
              exact Nat.le_trans (Nat.le_of_lt hlen) (h.2.2 z rfl)
        · have h := ih (some b)
          rw [show findZoneLoop domain (some b) (z :: rest) = findZoneLoop domain (some b) rest by
            simp [findZoneLoop, hm, hlen]]
          cases hr : findZoneLoop domain (some b) rest with
          | none =>
            rw [hr] at h
            exact absurd h.1 (by simp)
          | some r =>
            rw [hr] at h
            refine ⟨?_, ?_, ?_⟩
            · rcases h.1 with h1 | h1
              · exact Or.inl h1
              · exact Or.inr ⟨List.mem_cons_of_mem z h1.1, h1.2⟩
            · intro z2 hz2 hm2
              rcases List.mem_cons.mp hz2 with h2 | h2
              · subst h2
                exact Nat.le_trans (Nat.le_of_not_lt hlen) (h.2.2 b rfl)
              · exact h.2.1 z2 h2 hm2
            · exact h.2.2
    · have hm2 : domainMatchesOrigin domain z.1 = false := by
        revert hm
        cases domainMatchesOrigin domain z.1 <;> simp
      have h := ih best
      rw [show findZoneLoop domain best (z :: rest) = findZoneLoop domain best rest by
        simp [findZoneLoop, hm2]]
      cases hr : findZoneLoop domain best rest with
      | none =>
        rw [hr] at h
        refine ⟨h.1, ?_⟩
        intro z2 hz2
        rcases List.mem_cons.mp hz2 with h2 | h2
        · subst h2
          exact hm2
        · exact h.2 z2 h2
      | some r =>
        rw [hr] at h
        refine ⟨?_, ?_, h.2.2⟩
        · rcases h.1 with h1 | h1
          · exact Or.inl h1
          · exact Or.inr ⟨List.mem_cons_of_mem z h1.1, h1.2⟩
        · intro z2 hz2 hmz
          rcases List.mem_cons.mp hz2 with h2 | h2
          · subst h2
            rw [hm2] at hmz
            cases hmz
          · exact h.2.1 z2 h2 hmz

/-- C5: zone dispatch returns a managed file whose origin matches the dotted domain
(equality, or the domain ends with "." ++ origin-without-trailing-dot ++ ".") and
whose origin is longest among all matching files; when no origin matches, dispatch
yields none and the update operation fails with the zone-not-found error. -/
theorem zone_dispatch_longest_suffix (zones : List ZoneF) (domain : Str)
    (addrs : List Addr) :
    (∀ z, findZoneFile domain zones = some z →
      z ∈ zones ∧ domainMatchesOrigin domain z.1 = true ∧
        ∀ z2 ∈ zones, domainMatchesOrigin domain z2.1 = true →
          z2.1.length ≤ z.1.length) ∧
    (findZoneFile domain zones = none ↔
      ∀ z ∈ zones, domainMatchesOrigin domain z.1 = false) ∧
    ((∀ z ∈ zones, domainMatchesOrigin (ensureDot domain) z.1 = false) →
      ctrlUpdateDDNS zones domain addrs = .error .zoneNotFound) := by
  have hchar := findZoneLoop_char domain zones none
  refine ⟨?_, ⟨?_, ?_⟩, ?_⟩
  · intro z hz
    rw [findZoneFile] at hz
    rw [hz] at hchar
    rcases hchar.1 with h1 | h1
    · cases h1
    · exact ⟨h1.1, h1.2, fun z2 hz2 hm2 => hchar.2.1 z2 hz2 hm2⟩
  · intro hnone
    rw [findZoneFile] at hnone
    rw [hnone] at hchar
    exact hchar.2
  · intro hall
    cases hr : findZoneFile domain zones with
    | none => rfl
    | some r =>
      rw [findZoneFile] at hr
      rw [hr] at hchar
      rcases hchar.1 with h1 | h1
      · cases h1
      · rw [hall r h1.1] at h1
        cases h1.2
  · intro hall
    have hchar2 := findZoneLoop_char (ensureDot domain) zones none
    unfold ctrlUpdateDDNS
    cases hr : findZoneFile (ensureDot domain) zones with
    | none => simp only [hr]
    | some r =>
      rw [findZoneFile] at hr
      rw [hr] at hchar2
      rcases hchar2.1 with h1 | h1
      · cases h1
      · rw [hall r h1.1] at h1
        cases h1.2

/-- Claim C5 witness: with two matching files, the longer origin wins. -/
theorem zone_dispatch_longest_suffix_witness :
    ((str "b.example.org.", ([] : List Entry)) ∈
        [((str "example.org."), ([] : List Entry)), ((str "b.example.org."), ([] : List Entry))] ∧
      domainMatchesOrigin (str "a.b.example.org.") (str "b.example.org.") = true ∧
      ∀ z2 ∈ [((str "example.org."), ([] : List Entry)), ((str "b.example.org."), ([] : List Entry))],
        domainMatchesOrigin (str "a.b.example.org.") z2.1 = true →
          z2.1.length ≤ (str "b.example.org.").length) := by
  exact (zone_dispatch_longest_suffix
    [((str "example.org."), ([] : List Entry)), ((str "b.example.org."), ([] : List Entry))]
    (str "a.b.example.org.") []).1 (str "b.example.org.", ([] : List Entry)) (by decide)

/-! ## C9: StripOrigin -/

/-- C9 counterexample: the claim fails on both implementations it cites.  dnsfmt's
StripOrigin returns "" (not "@") at origin = name = "", since its emptiness guard
fires before the equality case; and zone's StripOrigin, which has no such guard,
returns "ab" (not the unchanged "abc") at origin = "" and name = "abc", although the
claim demands the name unchanged whenever origin is empty. -/
theorem stripOrigin_empty_origin_counterexample :
    decide (stripOrigin [] [] = str "@") = false ∧
    decide (stripOriginZone (str "abc") [] = str "abc") = false := by decide

/-- C9 (amended): for a non-empty origin both implementations agree and behave as
the claim states: "@" when name equals origin; the prefix of name with the one
separating byte and the origin removed when origin is a proper suffix; the name
unchanged when origin is not a suffix.  For an empty origin they diverge, and
neither matches the claim's "name unchanged" clause at every point: dnsfmt's
StripOrigin (guarded by len(origin) > 0, main.go:288) does return the name
unchanged, including "" at name = origin = ""; zone's StripOrigin (controller.go:480,
no guard) instead returns "@" when the name is also empty and the name with its
last byte removed otherwise. -/
theorem stripOrigin_characterization (origin name : Str) :
    (origin ≠ [] → name = origin →
      stripOrigin origin name = str "@" ∧ stripOriginZone name origin = str "@") ∧
    (origin ≠ [] → origin <:+ name → name ≠ origin →
      ∃ pre c, name = pre ++ c :: origin ∧
        stripOrigin origin name = pre ∧ stripOriginZone name origin = pre) ∧
    (¬ origin <:+ name →
      stripOrigin origin name = name ∧ stripOriginZone name origin = name) ∧
    (origin = [] → stripOrigin origin name = name) ∧
    (origin = [] → name = [] → stripOriginZone name origin = str "@") ∧
    (origin = [] → name ≠ [] → stripOriginZone name origin = name.dropLast) := by
  refine ⟨?_, ?_, ?_, ?_, ?_, ?_⟩
  · intro hne heq
    subst heq
    constructor
    · simp [stripOrigin, List.isSuffixOf_iff_suffix, List.suffix_refl,
        List.length_pos.mpr hne]
    · simp [stripOriginZone, List.isSuffixOf_iff_suffix, List.suffix_refl]
  · intro hne hsuf hprop
    obtain ⟨t, ht⟩ := hsuf
    have htne : t ≠ [] := by
      intro h
      rw [h, List.nil_append] at ht
      exact hprop ht.symm
    rcases List.eq_nil_or_concat t with h | ⟨pre, c, hc⟩
    · exact absurd h htne
    have hname : name = pre ++ c :: origin := by
      rw [← ht, hc]
      simp [List.concat_eq_append]
    have hlen : name.length = pre.length + 1 + origin.length := by
      rw [hname]
      simp [List.length_append]
      omega
    have hneq : (name.length == origin.length) = false := by
      simp only [beq_eq_false_iff_ne, ne_eq]
      omega
    have hidx : name.length - origin.length - 1 = pre.length := by omega
    have hcond2 : (origin.isSuffixOf name) = true := by
      rw [List.isSuffixOf_iff_suffix]
      exact ⟨t, ht⟩
    have hcond : (0 < origin.length && origin.isSuffixOf name) = true := by
      rw [Bool.and_eq_true]
      exact ⟨by simp [List.length_pos.mpr hne], hcond2⟩
    have htake : name.take (name.length - origin.length - 1) = pre := by
      rw [hidx, hname, List.take_append_of_le_length (by simp)]
      simp
    refine ⟨pre, c, hname, ?_, ?_⟩
    · rw [stripOrigin, if_pos hcond, if_neg (by simp [hneq]), htake]
    · rw [stripOriginZone, if_pos hcond2, if_neg (by simp [hneq]), htake]
  · intro h
    have hS : (origin.isSuffixOf name) = false := by
      rw [Bool.eq_false_iff]
      intro hc
      exact h (List.isSuffixOf_iff_suffix.mp hc)
    exact ⟨by simp [stripOrigin, hS], by simp [stripOriginZone, hS]⟩
  · intro h
    subst h
    simp [stripOrigin]
  · intro ho hn
    subst ho
    subst hn
    decide
  · intro ho hn
    subst ho
    have hS : (([] : Str).isSuffixOf name) = true := by
      rw [List.isSuffixOf_iff_suffix]
      exact List.nil_suffix
    rw [stripOriginZone, if_pos hS, if_neg (by simp; exact hn)]
    simp [List.dropLast_eq_take]

/-- Claim C9 witness: both implementations at name = origin = "example.org.". -/
theorem stripOrigin_characterization_witness :
    stripOrigin (str "example.org.") (str "example.org.") = str "@" ∧
    stripOriginZone (str "example.org.") (str "example.org.") = str "@" :=
  (stripOrigin_characterization (str "example.org.") (str "example.org.")).1
    (by decide) rfl

/-! ## C8: the pass-1 owner tally -/

theorem bump_lookup0 (k : Str) :
    ∀ (m : List (Str × Nat)) (x : Str),
      lookup0 (bump k m) x = if x = k then lookup0 m x + 1 else lookup0 m x := by
  intro m
  induction m with
  | nil =>
    intro x
    by_cases hx : x = k
    · simp [bump, lookup0, List.lookup, hx]
    · have hb : (x == k) = false := beq_eq_false_iff_ne.mpr hx
      simp [bump, lookup0, List.lookup, hx, hb]
  | cons p rest ih =>
    intro x
    obtain ⟨k2, v⟩ := p
    by_cases hk : k2 = k
    · subst hk
      by_cases hx : x = k2
      · have hb : (x == k2) = true := beq_iff_eq.mpr hx
        simp [bump, lookup0, List.lookup, hb, hx]
      · have hb : (x == k2) = false := beq_eq_false_iff_ne.mpr hx
        simp [bump, lookup0, List.lookup, hb, hx]
    · by_cases hx : x = k2
      · have hb : (x == k2) = true := beq_iff_eq.mpr hx
        have hxk : ¬ x = k := fun h => hk (by rw [← hx, h])
        simp [bump, lookup0, List.lookup, hk, hb, hxk]
      · have hb : (x == k2) = false := beq_eq_false_iff_ne.mpr hx
        have h1 := ih x
        simp only [lookup0] at h1
        simp [bump, lookup0, List.lookup, hk, hb, h1]

/-- C8 counterexample: for two records with owners a then b within the zone
example.org., pass 1 leaves the outgoing owner a at tally 0 and bumps the incoming
owner b to 1; the claim demands a tally of 1 for the outgoing owner a. -/
theorem tally_skips_outgoing_owner :
    c8tally (str "a") = some 0 ∧ c8tally (str "b") = some 1 := by decide

/-- C8 (amended): every time the (stripped) owner of the current record differs from
the previous record's non-empty owner, the pass-1 tally increments the count of the
incoming owner when that owner is non-empty, and of the outgoing (previous) owner
only when the incoming owner is empty. -/
theorem tally_bumps_incoming_owner (single : List (Str × Nat)) (prevname dom : Str)
    (hprev : prevname ≠ []) (hne : dom ≠ prevname) (x : Str) :
    lookup0 (tallyStep single prevname dom) x =
      if x = (if dom = [] then prevname else dom) then lookup0 single x + 1
      else lookup0 single x := by
  unfold tallyStep
  rw [if_pos ⟨hne, hprev⟩]
  by_cases hd : dom = [] <;> simp [hd, bump_lookup0]

/-- Claim C8 witness. -/
theorem tally_bumps_incoming_owner_witness :
    lookup0 (tallyStep [] (str "a") (str "b")) (str "b") = 1 := by
  rw [tally_bumps_incoming_owner [] (str "a") (str "b") (by decide) (by decide) (str "b")]
  decide

/-! ## C7: blank-line grouping -/

theorem blankBefore_iff (cfg : Cfg) (st : P2St) (dom typ : Str) :
    blankBefore cfg st dom typ = true ↔
      (st.prevname ≠ dom ∧ dom ≠ [] ∧ st.prevcom = false ∧ st.firstname = false ∧
        (1 < lookup0 cfg.single st.prevname ∨
          (lookup0 cfg.single st.prevname = 1 ∧ st.prevtype ≠ typ))) := by
  simp only [blankBefore, Bool.and_eq_true, Bool.or_eq_true, decide_eq_true_eq,
    Bool.not_eq_true']
  tauto

/-- C7 counterexample: three adjacent singleton CNAME owners reformat to exactly
three lines with no blank separator, although the second and third records are
adjacent, have different owners, the second is not the first record and no comment
precedes the third — the claim demands a blank line there. -/
theorem singleton_same_type_owners_pack_without_blank :
    c7res.isOk = true ∧ c7lines.length = 3 ∧ c7lines.contains [] = false := by decide

/-- C7 (amended): a record is preceded by a blank output line iff its (stripped)
owner is non-empty and differs from the tracked previous owner, no comment
immediately precedes it, it is not the first record, and the outgoing owner's tally
is above one — or exactly one while the record's type differs from the previous
type; in particular records whose owner equals the previous one are never preceded
by a blank line. -/
theorem blank_line_grouping_rule (cfg : Cfg) (st : P2St) (dom : Str) (ttl : Option Nat)
    (cls typ : Str) (rrty : Nat) (values : List Str) (L : List Str)
    (hok : recordLines cfg st dom ttl cls typ rrty values = .ok L) :
    L.head? = some [] ↔
      (st.prevname ≠ dom ∧ dom ≠ [] ∧ st.prevcom = false ∧ st.firstname = false ∧
        (1 < lookup0 cfg.single st.prevname ∨
          (lookup0 cfg.single st.prevname = 1 ∧ st.prevtype ≠ typ))) := by
  rw [← blankBefore_iff cfg st dom typ]
  cases hv : valueLines cfg rrty values with
  | error e =>
    unfold recordLines at hok
    rw [hv] at hok
    cases hok
  | ok pr =>
    obtain ⟨first, conts⟩ := pr
    unfold recordLines at hok
    rw [hv] at hok
    injection hok with hok
    subst hok
    cases hb : blankBefore cfg st dom typ with
    | true => simp
    | false =>
      simp only [Bool.false_eq_true, if_false, List.nil_append, List.cons_append,
        List.head?_cons]
      constructor
      · intro h
        have hbig := Option.some.inj h
        simp only [List.append_eq_nil] at hbig
        obtain ⟨⟨⟨⟨hdom, httl⟩, hcls⟩, hty1, hty2⟩, hfirst⟩ := hbig
        exact absurd hty1 (by decide)
      · intro h
        cases h

/-- Claim C7 witness: an owner change away from a two-record owner gets a blank line. -/
theorem blank_line_grouping_rule_witness :
    ((recordLines ⟨[(str "a", 2)], 5, false, 0⟩ ⟨str "a", str "A", 0, false, false⟩
        (str "b") none (str "IN") (str "A") typeA [str "x"]).toOption.getD []).head? =
      some [] := by
  have h := blank_line_grouping_rule ⟨[(str "a", 2)], 5, false, 0⟩
    ⟨str "a", str "A", 0, false, false⟩ (str "b") none (str "IN") (str "A") typeA
    [str "x"]
    ((recordLines ⟨[(str "a", 2)], 5, false, 0⟩ ⟨str "a", str "A", 0, false, false⟩
      (str "b") none (str "IN") (str "A") typeA [str "x"]).toOption.getD []) rfl
  exact h.mpr (by decide)

/-! ## C3: the reformatter is not idempotent -/

/-- C3: code-bug evidence — both reformat runs on `xC3` succeed yet their outputs
differ: the first run emits no blank line before owner b (the outgoing owner a has
tally 0), while the second run, whose input carries owner a only on the first line of
its group, tallies a at 1 and inserts a blank line before b since the adjacent types
differ (AAAA then A). -/
theorem reformat_idempotence_fails :
    xC3once.isOk = true ∧ xC3twice.isOk = true ∧
      decide (xC3twice = xC3once) = false := by
  exact ⟨by decide, by decide, by decide⟩

/-! ## C6: the 64-hex TLSA datum is not kept on one line -/

set_option maxRecDepth 40000 in
/-- C6: code-bug evidence — on the repository's own TestFormatTLSAStaysOneLine input
the reformatter splits the 64-byte tail into 55- and 9-byte chunks (64 > 55) and
emits the parenthesized form: five output lines, an opening parenthesis on the TLSA
header line, and no line carrying the full 64-hex datum — while the claim and the
test demand a single line with the full value and no parenthesis. -/
theorem tlsa_64_hex_parenthesized :
    c6res.isOk = true ∧ c6lines.length = 5 ∧ (c6lines.getD 1 []).contains '(' = true ∧
      c6lines.all (fun l => ! decide (c6hex <:+: l)) = true := by
  exact ⟨by decide, by decide, by decide, by decide⟩

/-! ## C10: the TXT layout needs at least one value token -/

/-- C10: the TXT layout branch of Reformat reads values[0] whenever the record has at
most one value, so a TXT entry with zero value tokens hits an out-of-range access (a
runtime panic, modelled as the `panicIdx` outcome) rather than an error branch, and
the branch succeeds on every non-empty value list; a whole reformat run on a zone
holding such a TXT record dies the same way. -/
theorem txt_layout_requires_value (cfg : Cfg) :
    valueLines cfg typeTXT [] = .error .panicIdx ∧
    (∀ v vs, (valueLines cfg typeTXT (v :: vs)).isOk = true) ∧
    reformatEntries 0 false (str "example.org.")
      [Entry.record (str "t.example.org.") none (str "IN") (str "TXT") typeTXT []] =
      .error .panicIdx := by
  refine ⟨by simp [valueLines], ?_, by decide⟩
  intro v vs
  cases vs with
  | nil => rfl
  | cons w ws => rfl

end Zoneomatic
